import Mathlib

/-!
Verification of the FastFile conversion service core.

Shallow embedding of the backend sources:
- `src/backend/src/utils/fileUtils.ts` (file classification),
- `src/backend/src/utils/cleanupManager.ts` (artifact lifecycle registry),
- `src/backend/src/routes/conversion.ts` (conversion dispatch and download handler),
- `src/backend/src/services/archiveConverter.ts` (archive-to-archive conversion),
- `src/backend/src/services/mediaConverter.ts` (FFmpeg settings),
- `src/backend/src/services/documentConverter.ts` (txt/md parse and render).

External codecs (ffmpeg runs, zip/tar libraries) are opaque capability
providers in the sources; where a converter merely forwards to one, the
embedding takes the codec outcome as a parameter and models the
control flow, directory bookkeeping and registry mutation exactly.
-/

namespace FastFile

/-! ## Node `path.extname` (posix), used by `FileUtils.getFileType` -/

/-- Scan state of the Node posix `path.extname` loop. The source uses `-1`
sentinels for `startDot` and `end`, so the embedding keeps `Int` fields. -/
structure ExtScan where
  startDot : Int
  startPart : Int
  endIdx : Int
  matchedSlash : Bool
  preDotState : Int
deriving Repr, DecidableEq

/-- The right-to-left character scan of the Node posix `extname`. The `Nat`
argument is one past the index under scrutiny; hitting a separator after
real content breaks out recording `startPart`. -/
def extnameLoop (cs : List Char) : Nat → ExtScan → ExtScan
  | 0, st => st
  | i+1, st =>
    let code := cs.getD i ' '
    if code = '/' then
      if !st.matchedSlash then { st with startPart := (i : Int) + 1 }
      else extnameLoop cs i st
    else
      let st' := if st.endIdx = -1 then
        { st with matchedSlash := false, endIdx := (i : Int) + 1 } else st
      if code = '.' then
        if st'.startDot = -1 then extnameLoop cs i { st' with startDot := (i : Int) }
        else if st'.preDotState ≠ 1 then extnameLoop cs i { st' with preDotState := 1 }
        else extnameLoop cs i st'
      else if st'.startDot ≠ -1 then extnameLoop cs i { st' with preDotState := -1 }
      else extnameLoop cs i st'

/-- The Node posix `path.extname`: the substring from the final dot of the last
path component to its end, or `""` for dotless names, names whose only dot is
leading (`".bashrc"`), and the component `".."`. -/
def extname (s : String) : String :=
  let cs := s.data
  let st := extnameLoop cs cs.length ⟨-1, 0, -1, true, 0⟩
  if st.startDot = -1 ∨ st.endIdx = -1 ∨ st.preDotState = 0 ∨
      (st.preDotState = 1 ∧ st.startDot = st.endIdx - 1 ∧ st.startDot = st.startPart + 1)
  then ""
  else ⟨(cs.drop st.startDot.toNat).take (st.endIdx - st.startDot).toNat⟩

/-! ## `FileUtils` (src/backend/src/utils/fileUtils.ts) -/

/-- JavaScript `String.prototype.toLowerCase`, character by character
(ASCII-faithful, which covers every extension in the tables). -/
def jsToLower (s : String) : String := ⟨s.data.map Char.toLower⟩

/-- JavaScript `String.prototype.toUpperCase`, character by character. -/
def jsToUpper (s : String) : String := ⟨s.data.map Char.toUpper⟩

/-- JavaScript `s.slice(1)`: drop the first character. -/
def jsSlice1 (s : String) : String := ⟨s.data.drop 1⟩

def videoFormats : List String :=
  [".mp4", ".avi", ".mov", ".mkv", ".webm", ".flv", ".mpeg", ".mpg",
   ".wmv", ".3gp", ".m4v", ".mts", ".m2ts", ".ts", ".ogv", ".f4v", ".gif"]

def audioFormats : List String :=
  [".mp3", ".wav", ".aac", ".flac", ".ogg", ".m4a", ".wma", ".oga",
   ".aiff", ".amr", ".opus", ".ac3", ".caf", ".dss", ".voc", ".weba"]

def imageFormats : List String :=
  [".jpg", ".jpeg", ".png", ".gif", ".bmp", ".webp", ".tiff", ".tif",
   ".heic", ".ico", ".svg", ".avif", ".psd", ".eps", ".ai", ".cr2",
   ".arw", ".dng", ".raf", ".nef", ".rw2", ".crw", ".orf", ".srw",
   ".x3f", ".dcr", ".mrw", ".3fr", ".erf", ".mef", ".mos", ".nrw",
   ".pef", ".rwl", ".srf"]

def documentFormats : List String :=
  [".pdf", ".doc", ".docx", ".odt", ".txt", ".rtf", ".html", ".htm",
   ".md", ".tex", ".djvu", ".wps", ".abw", ".pages", ".dotx"]

def archiveFormats : List String :=
  [".zip", ".tar", ".jar", ".tar.gz", ".tar.bz2", ".tar.xz", ".tgz"]

/-- The `FileType` union of src/backend/src/types/index.ts. -/
inductive FileType where
  | video | audio | image | document | archive | unknown
deriving DecidableEq, Repr

/-- The table-lookup chain of `FileUtils.getFileType`, applied to the local
`extension = path.extname(filename).toLowerCase()`. -/
def getFileTypeOfExt (extension : String) : FileType :=
  if videoFormats.contains extension then .video
  else if audioFormats.contains extension then .audio
  else if imageFormats.contains extension then .image
  else if documentFormats.contains extension then .document
  else if archiveFormats.contains extension then .archive
  else .unknown

/-- Embedding of `FileUtils.getFileType`: lower-cased `path.extname`, looked up against the
five tables in source order. -/
def getFileType (filename : String) : FileType :=
  getFileTypeOfExt (jsToLower (extname filename))

structure SupportedFormats where
  video : List String
  audio : List String
  image : List String
  document : List String
  archive : List String
deriving DecidableEq, Repr

/-- Embedding of `FileUtils.getSupportedFormats`: the same tables with the leading dot
sliced off. -/
def getSupportedFormats : SupportedFormats :=
  { video := videoFormats.map jsSlice1
  , audio := audioFormats.map jsSlice1
  , image := imageFormats.map jsSlice1
  , document := documentFormats.map jsSlice1
  , archive := archiveFormats.map jsSlice1 }

/-- Embedding of `FileUtils.isValidFileType`. -/
def isValidFileType (filename : String) : Bool :=
  getFileType filename ≠ FileType.unknown

/-! ## `CleanupManager` (src/backend/src/utils/cleanupManager.ts)

The registry is a JS `Map<string, FileRecord>` plus the Node timer table.
Timestamps are milliseconds (`Date.getTime()`), carried as `Int` exactly as
JS arithmetic on them behaves; timer handles are numbered consecutively so
that freshness of `setTimeout` handles is explicit. `Map.set` replaces any previous
binding for the key, which the association list realises by filtering the
key out before consing. -/

/-- Embedding of `FILE_EXPIRY_TIME = 5 * 60 * 1000`. -/
def FILE_EXPIRY_TIME : Int := 5 * 60 * 1000

/-- The `FileRecord` interface: filename, creation timestamp, timer handle. -/
structure FileRecord where
  filename : String
  createdAt : Int
  timeout : Nat
deriving DecidableEq, Repr

/-- State of a `CleanupManager` instance: the `fileRecords` map together with
the set of timers currently scheduled and a fresh-handle counter. -/
structure CMState where
  fileRecords : List (String × FileRecord)
  activeTimers : List Nat
  nextTimer : Nat
deriving DecidableEq, Repr

/-- A manager with no tracked files, as produced by the constructor. -/
def CMState.empty : CMState := ⟨[], [], 0⟩

/-- Embedding of `fileRecords.get(filename)`. -/
def lookupRecord (s : CMState) (filename : String) : Option FileRecord :=
  match s.fileRecords.find? (fun kv => kv.1 == filename) with
  | some kv => some kv.2
  | none => none

/-- Embedding of `CleanupManager.trackFile(filename)` at wall-clock time `now`: clear the
previous timeout when the file is already tracked, schedule a fresh timer and
`Map.set` the record with `createdAt = now`. -/
def trackFile (s : CMState) (filename : String) (now : Int) : CMState :=
  let timers :=
    match lookupRecord s filename with
    | some r => s.activeTimers.erase r.timeout
    | none => s.activeTimers
  { fileRecords :=
      (filename, ⟨filename, now, s.nextTimer⟩) ::
        s.fileRecords.filter (fun kv => kv.1 ≠ filename)
  , activeTimers := s.nextTimer :: timers
  , nextTimer := s.nextTimer + 1 }

/-- Embedding of `CleanupManager.isFileExpired(filename)` at wall-clock time `now`:
untracked means expired; otherwise expired exactly when strictly more than
`FILE_EXPIRY_TIME` milliseconds have elapsed since `createdAt`. -/
def isFileExpired (s : CMState) (now : Int) (filename : String) : Bool :=
  match lookupRecord s filename with
  | none => true
  | some r => now - r.createdAt > FILE_EXPIRY_TIME

/-- Embedding of `CleanupManager.stopTracking(filename)`: when tracked, clear the timer and
drop the record; the file itself is untouched. -/
def stopTracking (s : CMState) (filename : String) : CMState :=
  match lookupRecord s filename with
  | some r =>
      { fileRecords := s.fileRecords.filter (fun kv => kv.1 ≠ filename)
      , activeTimers := s.activeTimers.erase r.timeout
      , nextTimer := s.nextTimer }
  | none => s

/-- The private `deleteFile` body that a firing expiry timer runs: remove the
file from the output directory when present, then clear the timer and the
record. `disk` is the set of filenames present in the output directory. -/
def expireFile (s : CMState) (disk : List String) (filename : String) :
    CMState × List String :=
  let disk' := disk.filter (fun f => f ≠ filename)
  match lookupRecord s filename with
  | some r =>
      ({ fileRecords := s.fileRecords.filter (fun kv => kv.1 ≠ filename)
       , activeTimers := s.activeTimers.erase r.timeout
       , nextTimer := s.nextTimer }, disk')
  | none => (s, disk')

/-- Number of registry entries recorded under `filename`. -/
def countRecords (s : CMState) (filename : String) : Nat :=
  (s.fileRecords.filter (fun kv => kv.1 = filename)).length

/-! ## Conversion routes (src/backend/src/routes/conversion.ts) -/

/-- JavaScript `format.startsWith('.')`: the first character is a dot. -/
def jsStartsWithDot (s : String) : Bool :=
  match s.data with
  | '.' :: _ => true
  | _ => false

/-- The `outputFormat` computation of the `POST /api/convert` handler:
`format.startsWith('.') ? format : '.' + format`. -/
def outputFormatOf (format : String) : String :=
  if jsStartsWithDot format then format else "." ++ format

/-- Modelled from the spec: the canonical target-format form the dispatcher
is claimed to produce — lower-cased with exactly one leading separator. -/
def specCanonicalFormat (format : String) : String :=
  "." ++ jsToLower ⟨format.data.dropWhile (fun c => c = '.')⟩

/-- Body of the structured JSON error responses of the download route. -/
structure JsonErrorBody where
  error : String
  message : String
  code : String
deriving DecidableEq, Repr

/-- Outcome of `GET /api/download/:filename`. -/
inductive DownloadResponse where
  | jsonError (status : Nat) (body : JsonErrorBody)
  | streamed (filename : String)
deriving DecidableEq, Repr

/-- The `GET /api/download/:filename` handler over the registry state and the
set `disk` of files physically present in the output directory. Returns the
response together with the registry and directory contents once the request —
including the `fileStream.on('end')` cleanup that runs immediately after a
successful stream — has completed. -/
def downloadHandler (cm : CMState) (disk : List String) (now : Int)
    (filename : String) : DownloadResponse × CMState × List String :=
  if isFileExpired cm now filename then
    (.jsonError 410
      ⟨"DOWNLOAD_EXPIRED",
       "Download link has expired. Files are only available for 5 minutes after conversion.",
       "DOWNLOAD_EXPIRED"⟩, cm, disk)
  else if !(disk.contains filename) then
    (.jsonError 404
      ⟨"FILE_NOT_FOUND",
       "File not found. It may have been deleted or never existed.",
       "FILE_NOT_FOUND"⟩, cm, disk)
  else
    (.streamed filename, stopTracking cm filename,
     disk.filter (fun f => f ≠ filename))

/-! ## `ArchiveConverter` (src/backend/src/services/archiveConverter.ts)

The zip/tar codecs are external capability providers; the outcome of each codec invocation as
outcome is a parameter of type `Except String Unit`. The embedding tracks the
set of directories that exist, which is what the temporary-directory claim is
about. -/

/-- Embedding of `this.supportedFormats` as initialised by `initializeSupportedFormats`. -/
def supportedArchiveFormats : List String :=
  [".zip", ".jar", ".tar", ".tar.gz", ".tar.bz2", ".tar.xz", ".tgz"]

/-- Embedding of `ArchiveConverter.isFormatSupported`. -/
def archiveFormatSupported (format : String) : Bool :=
  supportedArchiveFormats.contains (jsToLower format)

/-- Embedding of `fs.ensureDir`. -/
def ensureDir (dirs : List String) (d : String) : List String :=
  if dirs.contains d then dirs else d :: dirs

/-- Embedding of `ArchiveConverter.extractArchive` into `extractDir`: `ensureDir` runs
first, then the format-support guard throws for unsupported inputs, then the
opaque codec either succeeds or throws. (The summary file written on success
is file-level state the directory claims do not touch.) -/
def extractArchiveModel (dirs : List String) (extractDir : String)
    (inputFormat : String) (codec : Except String Unit) :
    Except String Unit × List String :=
  let dirs1 := ensureDir dirs extractDir
  if !(archiveFormatSupported (jsToLower inputFormat)) then
    (.error "Archive format is not supported", dirs1)
  else
    match codec with
    | .error e => (.error e, dirs1)
    | .ok _ => (.ok (), dirs1)

/-- Embedding of `ArchiveConverter.createArchive`: its guard throws unless the format is
supported or is `.rar`, and `.rar` then still falls into the throwing switch
default. Creates no directories. -/
def createArchiveModel (dirs : List String) (outputFormat : String)
    (codec : Except String Unit) : Except String Unit × List String :=
  let fmt := jsToLower outputFormat
  if !(archiveFormatSupported fmt) && fmt ≠ ".rar" then
    (.error "Archive format is not supported for creation", dirs)
  else if !(archiveFormatSupported fmt) then
    (.error "Unsupported archive format for creation", dirs)
  else
    match codec with
    | .error e => (.error e, dirs)
    | .ok _ => (.ok (), dirs)

/-- Embedding of `ArchiveConverter.convertArchiveFormat`: extract into the temporary
directory (`extractArchive` receives `tempDir + '.folder'` and therefore
extracts into `tempDir` itself), recreate, and only then — with no
`try`/`finally` — `fs.remove(tempDir)`. A thrown step propagates past the
removal. -/
def convertArchiveFormatModel (dirs : List String) (tempDir : String)
    (inputFormat outputFormat : String)
    (extractCodec createCodec : Except String Unit) :
    Except String Unit × List String :=
  let r1 := extractArchiveModel dirs tempDir inputFormat extractCodec
  match r1.1 with
  | .error e => (.error e, r1.2)
  | .ok _ =>
    let r2 := createArchiveModel r1.2 outputFormat createCodec
    match r2.1 with
    | .error e => (.error e, r2.2)
    | .ok _ => (.ok (), r2.2.filter (fun d => d ≠ tempDir))

/-- Whether an `Except` outcome is a success. -/
def exceptOk : Except String Unit → Bool
  | .ok _ => true
  | .error _ => false

/-! ## `MediaConverter` FFmpeg settings (src/backend/src/services/mediaConverter.ts)

A fluent-ffmpeg command is embedded as the data the chained setters
accumulate: codecs, output options and container format. -/

inductive Quality where
  | low | medium | high
deriving DecidableEq, Repr

/-- Accumulated state of a fluent-ffmpeg command builder. -/
structure FfCommand where
  videoCodecName : Option String := none
  audioCodecName : Option String := none
  outputOptions : List String := []
  formatName : Option String := none
deriving DecidableEq, Repr

def FfCommand.vcodec (c : FfCommand) (n : String) : FfCommand :=
  { c with videoCodecName := some n }

def FfCommand.acodec (c : FfCommand) (n : String) : FfCommand :=
  { c with audioCodecName := some n }

def FfCommand.addOpts (c : FfCommand) (opts : List String) : FfCommand :=
  { c with outputOptions := c.outputOptions ++ opts }

def FfCommand.container (c : FfCommand) (n : String) : FfCommand :=
  { c with formatName := some n }

/-- The `qualityMap` local to `applySimpleFormatSettings`. -/
structure SimpleQuality where
  crf : String
  bitrate : String
  audioBitrate : String
deriving DecidableEq, Repr

def simpleQualityMap : Quality → SimpleQuality
  | .low => ⟨"28", "500k", "96k"⟩
  | .medium => ⟨"23", "1000k", "128k"⟩
  | .high => ⟨"18", "2000k", "192k"⟩

/-- Embedding of `MediaConverter.getJpegQuality`. -/
def getJpegQuality : Quality → String
  | .low => "8"
  | .medium => "5"
  | .high => "2"

/-- Embedding of `MediaConverter.isVideoFile`: the motion-picture extension list consulted
by the gif case. -/
def isVideoFile (extension : String) : Bool :=
  [".mp4", ".avi", ".mov", ".mkv", ".webm", ".flv", ".mpeg", ".mpg",
   ".wmv", ".3gp", ".m4v"].contains (jsToLower extension)

/-- Embedding of `MediaConverter.applySimpleFormatSettings`, the settings function used by
`convertWithFFmpeg`. -/
def applySimpleFormatSettings (command : FfCommand) (format : String)
    (inputExt : String) (quality : Quality) : FfCommand :=
  let outputFormat := jsToLower format
  let q := simpleQualityMap quality
  if outputFormat = "mp4" then
    (((command.vcodec "libx264").acodec "aac").addOpts ["-crf", q.crf]).container "mp4"
  else if outputFormat = "avi" then
    (((command.vcodec "libx264").acodec "mp3").addOpts ["-b:v", q.bitrate]).container "avi"
  else if outputFormat = "mov" then
    (((command.vcodec "libx264").acodec "aac").addOpts ["-crf", q.crf]).container "mov"
  else if outputFormat = "webm" then
    (((command.vcodec "libvpx-vp9").acodec "libvorbis").addOpts ["-crf", q.crf]).container "webm"
  else if outputFormat = "mp3" then
    ((command.acodec "libmp3lame").addOpts ["-b:a", q.audioBitrate]).container "mp3"
  else if outputFormat = "aac" then
    ((command.acodec "aac").addOpts ["-b:a", q.audioBitrate]).container "adts"
  else if outputFormat = "wav" then
    (command.acodec "pcm_s16le").container "wav"
  else if outputFormat = "flac" then
    (command.acodec "flac").container "flac"
  else if outputFormat = "ogg" then
    ((command.acodec "libvorbis").addOpts ["-b:a", q.audioBitrate]).container "ogg"
  else if outputFormat = "jpg" ∨ outputFormat = "jpeg" then
    ((command.addOpts ["-vframes", "1"]).addOpts
      ["-q:v", getJpegQuality quality]).container "image2"
  else if outputFormat = "png" then
    (command.addOpts ["-vframes", "1"]).container "image2"
  else if outputFormat = "gif" then
    if isVideoFile inputExt then
      ((command.addOpts ["-vf", "fps=10,scale=320:-1:flags=lanczos"]).addOpts
        ["-t", "10"]).container "gif"
    else
      (command.addOpts ["-vframes", "1"]).container "gif"
  else if outputFormat = "bmp" then
    (command.addOpts ["-vframes", "1"]).container "image2"
  else if outputFormat = "webp" then
    ((command.addOpts ["-vframes", "1"]).addOpts ["-quality", "80"]).container "webp"
  else if outputFormat = "tiff" ∨ outputFormat = "tif" then
    (command.addOpts ["-vframes", "1"]).container "image2"
  else
    command.container outputFormat

/-- The command `convertWithFFmpeg` builds before running FFmpeg: a fresh
command with the always-overwrite flag, passed through
`applySimpleFormatSettings` with `inputExt = path.extname(inputPath).toLowerCase()`. -/
def convertWithFFmpegSettings (inputPath : String) (format : String)
    (quality : Quality) : FfCommand :=
  applySimpleFormatSettings ⟨none, none, ["-y"], none⟩ format
    (jsToLower (extname inputPath)) quality

/-- Whether an option list carries the adjacent pair `-vframes 1`. -/
def containsVframes1 : List String → Bool
  | [] => false
  | a :: rest =>
    (match a, rest with
     | "-vframes", "1" :: _ => true
     | _, _ => false) || containsVframes1 rest

/-- Whether the built command carries the single-frame extraction option. -/
def hasSingleFrameOpt (c : FfCommand) : Bool :=
  containsVframes1 c.outputOptions

/-! ## `DocumentConverter` txt/md paths (src/backend/src/services/documentConverter.ts)

The `.txt` and `.md` parse/render branches are pure string processing, so the
embedding works at the character-list level: `splitNl` is JavaScript
`split('\n')`, `joinWith` is `Array.prototype.join`, truthiness of
`line.trim()` is "has a non-whitespace character". -/

/-- JavaScript `content.split('\n')`. -/
def splitNl : List Char → List (List Char)
  | [] => [[]]
  | c :: rest =>
    if c = '\n' then [] :: splitNl rest
    else
      match splitNl rest with
      | h :: t => (c :: h) :: t
      | [] => [[c]]

/-- JavaScript `parts.join(sep)`. -/
def joinWith (sep : List Char) : List (List Char) → List Char
  | [] => []
  | [l] => l
  | l :: ls => l ++ sep ++ joinWith sep ls

/-- JavaScript truthiness of `line.trim()` (also `line.trim().length > 0`):
the line holds some non-whitespace character. -/
def trimNonempty (l : List Char) : Bool :=
  l.any (fun c => !c.isWhitespace)

/-- JavaScript `line.startsWith('#')`. -/
def startsWithHash (l : List Char) : Bool :=
  match l with
  | '#' :: _ => true
  | _ => false

/-- The structured intermediate form: title plus ordered paragraphs
(`StructuredContent` of src/backend/src/types/index.ts; the unused metadata
record is omitted). -/
structure DocContent where
  title : List Char
  paragraphs : List (List Char)
deriving DecidableEq, Repr

/-- Embedding of `parseInput`, `.txt` case: keep the non-blank lines, first one is the
title (falling back when there is none), the rest are the paragraphs. -/
def parseTxt (content : List Char) : DocContent :=
  let txtLines := (splitNl content).filter trimNonempty
  { title :=
      match txtLines with
      | [] => "Text Document".data
      | t :: _ => t
  , paragraphs := txtLines.drop 1 }

/-- Embedding of `generateOutput`, `.md` case, non-HTML input branch:
`"# title\n\n"` + `paragraphs.map(p => p + "\n").join("\n")` + the
`"\n\n---\n*Converted from <FMT> by FastFile*"` footer. -/
def generateMd (sc : DocContent) (inputFormat : String) : List Char :=
  "# ".data ++ sc.title ++ "\n\n".data ++
    joinWith ['\n'] (sc.paragraphs.map (fun p => p ++ ['\n'])) ++
    ("\n\n---\n*Converted from ".data ++
      (jsSlice1 inputFormat).data.map Char.toUpper ++ " by FastFile*".data)

/-- Embedding of `parseInput`, `.md` case: the title is the first `#`-line with its
leading hashes and whitespace removed (`replace(/^#+\s*/, '')`), the
paragraphs are every non-`#`, non-blank line. -/
def parseMd (content : List Char) : DocContent :=
  let mdLines := splitNl content
  { title :=
      match mdLines.find? (fun l => startsWithHash l) with
      | some l => (l.dropWhile (fun c => c = '#')).dropWhile Char.isWhitespace
      | none => "Markdown Document".data
  , paragraphs := mdLines.filter (fun l => !startsWithHash l && trimNonempty l) }

/-- Embedding of `generateOutput`, `.txt` case: title, an `'='` underline of the title's
length, the paragraphs joined by blank lines, and the fixed footer. -/
def generateTxt (sc : DocContent) : List Char :=
  sc.title ++ '\n' :: (List.replicate sc.title.length '=' ++ "\n\n".data ++
    joinWith "\n\n".data sc.paragraphs ++ "\n\n--- Converted by FastFile ---".data)

/-- The txt → md → txt round trip observed at the paragraph level: the
paragraph sequence that `generateTxt` would render after re-parsing the
generated Markdown. -/
def roundTripParas (input : List Char) : List (List Char) :=
  (parseMd (generateMd (parseTxt input) ".txt")).paragraphs

/-! ## Claims about the classifier (C6, C7, C10) -/

/-- C6: `FileUtils.getFileType` is deterministic and total — it always
returns a category and two calls on the same argument agree — it consults the
tables at the lower-cased `path.extname` of its argument, and it returns
`unknown` exactly when that lower-cased extension is in none of the five
category tables. -/
theorem getFileType_total_deterministic_unknown (filename : String) :
    getFileType filename = getFileType filename ∧
    getFileType filename = getFileTypeOfExt (jsToLower (extname filename)) ∧
    (getFileType filename = FileType.unknown ↔
      (videoFormats.contains (jsToLower (extname filename)) = false ∧
       audioFormats.contains (jsToLower (extname filename)) = false ∧
       imageFormats.contains (jsToLower (extname filename)) = false ∧
       documentFormats.contains (jsToLower (extname filename)) = false ∧
       archiveFormats.contains (jsToLower (extname filename)) = false)) := by
  refine ⟨rfl, rfl, ?_⟩
  unfold getFileType getFileTypeOfExt
  set e := jsToLower (extname filename) with he
  cases hv : videoFormats.contains e <;>
  cases ha : audioFormats.contains e <;>
  cases hi : imageFormats.contains e <;>
  cases hd : documentFormats.contains e <;>
  cases hr : archiveFormats.contains e <;>
  simp [hv, ha, hi, hd, hr]

/-- Evaluation of C6 at a concrete unrecognized extension. -/
theorem getFileType_total_deterministic_unknown_witness :
    getFileType "mystery.zzz" = FileType.unknown :=
  (getFileType_total_deterministic_unknown "mystery.zzz").2.2.mpr (by decide)

/-- C7 counterexample: canonical spreadsheet and presentation filenames all
classify as `unknown` — the classifier has no spreadsheet or presentation
category to put them in, refuting eight-category coverage. -/
theorem no_spreadsheet_presentation_category :
    getFileType "report.csv" = FileType.unknown ∧
    getFileType "report.xlsx" = FileType.unknown ∧
    getFileType "report.ods" = FileType.unknown ∧
    getFileType "slides.ppt" = FileType.unknown ∧
    getFileType "slides.pptx" = FileType.unknown ∧
    getFileType "slides.odp" = FileType.unknown := by
  decide

/-- C7 amended: the category table covers exactly the six `FileType`
categories — video, audio, image, document, archive, unknown — each realized
by a concrete filename, and every classification result is one of the six. -/
theorem classifier_covers_six_categories :
    getFileType "clip.mp4" = FileType.video ∧
    getFileType "song.mp3" = FileType.audio ∧
    getFileType "photo.png" = FileType.image ∧
    getFileType "notes.pdf" = FileType.document ∧
    getFileType "bundle.zip" = FileType.archive ∧
    getFileType "data.qqq" = FileType.unknown ∧
    ∀ t : FileType, t = FileType.video ∨ t = FileType.audio ∨ t = FileType.image ∨
      t = FileType.document ∨ t = FileType.archive ∨ t = FileType.unknown := by
  refine ⟨by decide, by decide, by decide, by decide, by decide, by decide, ?_⟩
  intro t
  cases t <;> simp

/-- C10: `.gif` is in the video table, which is consulted before the image
table, so every `.gif` filename classifies as video, while
`getSupportedFormats` advertises `gif` under both video and image. -/
theorem gif_routed_as_video :
    (∀ filename : String, jsToLower (extname filename) = ".gif" →
      getFileType filename = FileType.video) ∧
    getSupportedFormats.video.contains "gif" = true ∧
    getSupportedFormats.image.contains "gif" = true := by
  refine ⟨?_, by decide, by decide⟩
  intro filename h
  unfold getFileType
  rw [h]
  decide

/-- Evaluation of C10 at a concrete mixed-case gif filename. -/
theorem gif_routed_as_video_witness :
    getFileType "animation.GIF" = FileType.video ∧
    getSupportedFormats.video.contains "gif" = true ∧
    getSupportedFormats.image.contains "gif" = true :=
  ⟨gif_routed_as_video.1 "animation.GIF" (by decide),
   gif_routed_as_video.2.1, gif_routed_as_video.2.2⟩

/-! ## Registry lemmas and the lifecycle claims (C1, C2) -/

lemma find?_filter_ne (l : List (String × FileRecord)) (name : String) :
    (l.filter (fun kv => kv.1 ≠ name)).find? (fun kv => kv.1 == name) = none := by
  apply List.find?_eq_none.mpr
  intro kv hkv
  rcases List.mem_filter.mp hkv with ⟨-, h2⟩
  simp only [decide_eq_true_eq] at h2
  simp [h2]

lemma filter_eq_after_filter_ne (l : List (String × FileRecord)) (name : String) :
    (l.filter (fun kv => kv.1 ≠ name)).filter (fun kv => kv.1 = name) = [] := by
  induction l with
  | nil => rfl
  | cons kv l ih =>
      by_cases h : kv.1 = name <;> simp [List.filter_cons, h, ih]

lemma trackFile_fileRecords (s : CMState) (name : String) (t : Int) :
    (trackFile s name t).fileRecords =
      (name, ⟨name, t, s.nextTimer⟩) ::
        s.fileRecords.filter (fun kv => kv.1 ≠ name) := rfl

lemma trackFile_activeTimers (s : CMState) (name : String) (t : Int) :
    (trackFile s name t).activeTimers =
      s.nextTimer ::
        (match lookupRecord s name with
         | some r => s.activeTimers.erase r.timeout
         | none => s.activeTimers) := rfl

lemma trackFile_nextTimer (s : CMState) (name : String) (t : Int) :
    (trackFile s name t).nextTimer = s.nextTimer + 1 := rfl

lemma lookupRecord_trackFile_self (s : CMState) (name : String) (t : Int) :
    lookupRecord (trackFile s name t) name = some ⟨name, t, s.nextTimer⟩ := by
  unfold lookupRecord
  rw [trackFile_fileRecords]
  simp [List.find?_cons]

lemma lookupRecord_filter_ne (l : List (String × FileRecord))
    (timers : List Nat) (n : Nat) (name : String) :
    lookupRecord ⟨l.filter (fun kv => kv.1 ≠ name), timers, n⟩ name = none := by
  unfold lookupRecord
  rw [find?_filter_ne]

lemma lookupRecord_stopTracking_self (s : CMState) (name : String) :
    lookupRecord (stopTracking s name) name = none := by
  unfold stopTracking
  cases h : lookupRecord s name with
  | none => exact h
  | some r => exact lookupRecord_filter_ne s.fileRecords _ _ name

lemma lookupRecord_expireFile_self (s : CMState) (disk : List String)
    (name : String) :
    lookupRecord (expireFile s disk name).1 name = none := by
  unfold expireFile
  cases h : lookupRecord s name with
  | none => exact h
  | some r => exact lookupRecord_filter_ne s.fileRecords _ _ name

/-- C1: an untracked filename is expired; immediately after `trackFile` the
file is not expired; after `trackFile` at time `t` it reads expired exactly
when more than `FILE_EXPIRY_TIME` milliseconds have elapsed; and removal of
the record — by `stopTracking` or by the `deleteFile` run by the expiry timer — makes
it read expired again. -/
theorem cleanup_isFileExpired_lifecycle (s : CMState) (disk : List String)
    (name : String) (t now : Int) :
    (lookupRecord s name = none → isFileExpired s now name = true) ∧
    isFileExpired (trackFile s name t) t name = false ∧
    (isFileExpired (trackFile s name t) now name = true ↔
      FILE_EXPIRY_TIME < now - t) ∧
    isFileExpired (stopTracking s name) now name = true ∧
    isFileExpired (expireFile s disk name).1 now name = true := by
  refine ⟨?_, ?_, ?_, ?_, ?_⟩
  · intro h
    unfold isFileExpired
    rw [h]
  · unfold isFileExpired
    rw [lookupRecord_trackFile_self]
    simp only [Int.sub_self, decide_eq_false_iff_not, gt_iff_lt]
    unfold FILE_EXPIRY_TIME
    omega
  · unfold isFileExpired
    rw [lookupRecord_trackFile_self]
    simp [gt_iff_lt]
  · unfold isFileExpired
    rw [lookupRecord_stopTracking_self]
  · unfold isFileExpired
    rw [lookupRecord_expireFile_self]

/-- Evaluation of C1: a freshly tracked artifact is not expired at once, is
expired one millisecond past the window, and an untracked name is expired. -/
theorem cleanup_isFileExpired_lifecycle_witness :
    isFileExpired (trackFile CMState.empty "out.pdf" 0) 0 "out.pdf" = false ∧
    isFileExpired (trackFile CMState.empty "out.pdf" 0) 300001 "out.pdf" = true ∧
    isFileExpired CMState.empty 0 "out.pdf" = true :=
  ⟨(cleanup_isFileExpired_lifecycle CMState.empty [] "out.pdf" 0 0).2.1,
   (cleanup_isFileExpired_lifecycle CMState.empty [] "out.pdf" 0 300001).2.2.1.mpr
     (by decide),
   (cleanup_isFileExpired_lifecycle CMState.empty [] "out.pdf" 0 0).1 (by decide)⟩

/-- C2: tracking the same filename twice leaves exactly one record, whose
creation timestamp — hence expiry — comes from the second call and whose
timer is the fresh handle from the second call, the timer of the first call having been
cancelled. `hfresh` states that `setTimeout` handles are fresh. -/
theorem cleanup_trackFile_replaces (s : CMState) (name : String)
    (t1 t2 now : Int) (hfresh : ∀ id ∈ s.activeTimers, id < s.nextTimer) :
    countRecords (trackFile (trackFile s name t1) name t2) name = 1 ∧
    lookupRecord (trackFile (trackFile s name t1) name t2) name =
      some ⟨name, t2, s.nextTimer + 1⟩ ∧
    s.nextTimer ∉ (trackFile (trackFile s name t1) name t2).activeTimers ∧
    s.nextTimer + 1 ∈ (trackFile (trackFile s name t1) name t2).activeTimers ∧
    (isFileExpired (trackFile (trackFile s name t1) name t2) now name = true ↔
      FILE_EXPIRY_TIME < now - t2) := by
  have hlk1 : lookupRecord (trackFile s name t1) name =
      some ⟨name, t1, s.nextTimer⟩ := lookupRecord_trackFile_self s name t1
  have hlk2 : lookupRecord (trackFile (trackFile s name t1) name t2) name =
      some ⟨name, t2, s.nextTimer + 1⟩ := lookupRecord_trackFile_self _ name t2
  refine ⟨?_, hlk2, ?_, ?_, ?_⟩
  · unfold countRecords
    rw [trackFile_fileRecords, trackFile_fileRecords]
    simp [List.filter_cons, filter_eq_after_filter_ne]
  · simp only [trackFile_activeTimers, hlk1, trackFile_nextTimer,
      List.erase_cons_head]
    simp only [List.mem_cons, not_or]
    refine ⟨by omega, ?_⟩
    intro h
    have hsub : (match lookupRecord s name with
        | some r => s.activeTimers.erase r.timeout
        | none => s.activeTimers) ⊆ s.activeTimers := by
      cases lookupRecord s name with
      | none => exact fun a ha => ha
      | some r => exact List.erase_subset _ _
    have := hfresh _ (hsub h)
    omega
  · rw [trackFile_activeTimers, trackFile_nextTimer]
    exact List.mem_cons_self _ _
  · unfold isFileExpired
    rw [hlk2]
    simp [gt_iff_lt]

/-- Evaluation of C2 on a fresh manager: two tracks at times 0 and 7 leave
one record created at 7, timer 0 cancelled, timer 1 live. -/
theorem cleanup_trackFile_replaces_witness :
    countRecords (trackFile (trackFile CMState.empty "report.md" 0) "report.md" 7)
      "report.md" = 1 ∧
    lookupRecord (trackFile (trackFile CMState.empty "report.md" 0) "report.md" 7)
      "report.md" = some ⟨"report.md", 7, 1⟩ ∧
    0 ∉ (trackFile (trackFile CMState.empty "report.md" 0) "report.md" 7).activeTimers ∧
    0 + 1 ∈ (trackFile (trackFile CMState.empty "report.md" 0) "report.md" 7).activeTimers ∧
    (isFileExpired (trackFile (trackFile CMState.empty "report.md" 0) "report.md" 7)
      300008 "report.md" = true ↔ FILE_EXPIRY_TIME < 300008 - 7) :=
  cleanup_trackFile_replaces CMState.empty "report.md" 0 7 300008 (by simp [CMState.empty])

/-! ## The download route (C3) -/

lemma not_mem_filter_ne_self (l : List String) (name : String) :
    name ∉ l.filter (fun f => f ≠ name) := by
  intro h
  have := List.mem_filter.mp h
  simp at this

lemma contains_filter_ne_self (l : List String) (name : String) :
    (l.filter (fun f => f ≠ name)).contains name = false := by
  simp [not_mem_filter_ne_self]

/-- C3: an expired or untracked filename yields status 410 with error and
code `DOWNLOAD_EXPIRED` and leaves all state alone; an unexpired but
physically absent file yields 404 `FILE_NOT_FOUND`; otherwise the file is
streamed and, once the stream ends, the filename is untracked and the file
removed from the output directory. -/
theorem download_route_responses (cm : CMState) (disk : List String)
    (now : Int) (name : String) :
    (isFileExpired cm now name = true →
      downloadHandler cm disk now name =
        (DownloadResponse.jsonError 410
          ⟨"DOWNLOAD_EXPIRED",
           "Download link has expired. Files are only available for 5 minutes after conversion.",
           "DOWNLOAD_EXPIRED"⟩, cm, disk)) ∧
    (isFileExpired cm now name = false → disk.contains name = false →
      downloadHandler cm disk now name =
        (DownloadResponse.jsonError 404
          ⟨"FILE_NOT_FOUND",
           "File not found. It may have been deleted or never existed.",
           "FILE_NOT_FOUND"⟩, cm, disk)) ∧
    (isFileExpired cm now name = false → disk.contains name = true →
      (downloadHandler cm disk now name).1 = DownloadResponse.streamed name ∧
      lookupRecord (downloadHandler cm disk now name).2.1 name = none ∧
      (downloadHandler cm disk now name).2.2.contains name = false) := by
  refine ⟨?_, ?_, ?_⟩
  · intro h
    simp [downloadHandler, h]
  · intro h1 h2
    have h2' : name ∉ disk := by simpa using h2
    simp [downloadHandler, h1, h2']
  · intro h1 h2
    have h2' : name ∈ disk := by simpa using h2
    refine ⟨?_, ?_, ?_⟩
    · simp [downloadHandler, h1, h2']
    · simp [downloadHandler, h1, h2', lookupRecord_stopTracking_self]
    · simp [downloadHandler, h1, h2', contains_filter_ne_self,
        not_mem_filter_ne_self]

/-- Evaluation of C3: a file tracked at time 0 and present on disk streams
at time 10 and is untracked and deleted afterwards. -/
theorem download_route_responses_witness :
    (downloadHandler (trackFile CMState.empty "r.pdf" 0) ["r.pdf"] 10 "r.pdf").1 =
      DownloadResponse.streamed "r.pdf" ∧
    lookupRecord (downloadHandler (trackFile CMState.empty "r.pdf" 0)
      ["r.pdf"] 10 "r.pdf").2.1 "r.pdf" = none ∧
    (downloadHandler (trackFile CMState.empty "r.pdf" 0)
      ["r.pdf"] 10 "r.pdf").2.2.contains "r.pdf" = false :=
  (download_route_responses (trackFile CMState.empty "r.pdf" 0) ["r.pdf"] 10
    "r.pdf").2.2 (by decide) (by decide)

/-! ## Archive transcoding temporary directory (C4) -/

lemma mem_ensureDir_self (dirs : List String) (d : String) :
    d ∈ ensureDir dirs d := by
  unfold ensureDir
  split_ifs with h
  · simpa using h
  · exact List.mem_cons_self _ _

/-- C4 counterexample: when the extraction codec throws — after `ensureDir`
has already created the temporary directory — `convertArchiveFormat`
propagates the exception and the temporary directory survives. -/
theorem convertArchiveFormat_leaves_tempdir_on_failure :
    exceptOk (convertArchiveFormatModel [] "temp_1700000000000" ".zip" ".tar"
      (Except.error "unzip stream error") (Except.ok ())).1 = false ∧
    (convertArchiveFormatModel [] "temp_1700000000000" ".zip" ".tar"
      (Except.error "unzip stream error") (Except.ok ())).2.contains
      "temp_1700000000000" = true := by
  decide

/-- C4 amended: the temporary extraction directory is removed when the whole
archive-to-archive conversion succeeds, but on any failure — unsupported
format, extraction error or creation error — the removal is skipped and the
directory created by `ensureDir` remains. -/
theorem convertArchiveFormat_tempdir_cleanup (dirs : List String)
    (tempDir inputFormat outputFormat : String) (ec cc : Except String Unit) :
    (exceptOk (convertArchiveFormatModel dirs tempDir inputFormat outputFormat
        ec cc).1 = true →
      (convertArchiveFormatModel dirs tempDir inputFormat outputFormat
        ec cc).2.contains tempDir = false) ∧
    (exceptOk (convertArchiveFormatModel dirs tempDir inputFormat outputFormat
        ec cc).1 = false →
      (convertArchiveFormatModel dirs tempDir inputFormat outputFormat
        ec cc).2.contains tempDir = true) := by
  cases ec <;> cases cc <;>
    by_cases hin : archiveFormatSupported (jsToLower inputFormat) = true <;>
    by_cases hout : archiveFormatSupported (jsToLower outputFormat) = true <;>
    by_cases hrar : jsToLower outputFormat = ".rar" <;>
    simp_all [convertArchiveFormatModel, extractArchiveModel,
      createArchiveModel, exceptOk, mem_ensureDir_self, not_mem_filter_ne_self]

/-- Evaluation of C4 (amended): a fully successful transcode removes the
temporary directory; an unsupported input format leaves it behind. -/
theorem convertArchiveFormat_tempdir_cleanup_witness :
    (convertArchiveFormatModel ["output"] "temp_5" ".zip" ".tar"
      (Except.ok ()) (Except.ok ())).2.contains "temp_5" = false ∧
    (convertArchiveFormatModel ["output"] "temp_6" ".rar" ".zip"
      (Except.ok ()) (Except.ok ())).2.contains "temp_6" = true :=
  ⟨(convertArchiveFormat_tempdir_cleanup ["output"] "temp_5" ".zip" ".tar"
      (Except.ok ()) (Except.ok ())).1 (by decide),
   (convertArchiveFormat_tempdir_cleanup ["output"] "temp_6" ".rar" ".zip"
      (Except.ok ()) (Except.ok ())).2 (by decide)⟩

/-! ## Target-format normalization in the dispatcher (C5) -/

/-- C5 counterexample: the handler does not lower-case the requested format —
`"MP4"` becomes `".MP4"` and `".Pdf"` stays `".Pdf"`, differing from the
canonical lower-cased single-dot form the spec describes. -/
theorem outputFormat_not_lowercased :
    outputFormatOf "MP4" = ".MP4" ∧
    specCanonicalFormat "MP4" = ".mp4" ∧
    outputFormatOf "MP4" ≠ specCanonicalFormat "MP4" ∧
    outputFormatOf ".Pdf" = ".Pdf" ∧
    specCanonicalFormat ".Pdf" = ".pdf" ∧
    outputFormatOf ".Pdf" ≠ specCanonicalFormat ".Pdf" := by
  decide

/-- C5 amended: the handler guarantees a leading `'.'` — it passes a format
already starting with `'.'` through unchanged and prepends `'.'` otherwise —
but performs no case normalization. -/
theorem outputFormat_leading_dot (format : String) :
    jsStartsWithDot (outputFormatOf format) = true ∧
    (jsStartsWithDot format = true → outputFormatOf format = format) ∧
    (jsStartsWithDot format = false → outputFormatOf format = "." ++ format) := by
  refine ⟨?_, ?_, ?_⟩
  · unfold outputFormatOf
    split_ifs with h
    · exact h
    · unfold jsStartsWithDot
      rw [String.data_append]
      rfl
  · intro h
    simp [outputFormatOf, h]
  · intro h
    simp [outputFormatOf, h]

/-- Evaluation of C5 (amended) at a dotless mixed-case format. -/
theorem outputFormat_leading_dot_witness :
    jsStartsWithDot (outputFormatOf "Pdf") = true ∧
    outputFormatOf "Pdf" = "." ++ "Pdf" :=
  ⟨(outputFormat_leading_dot "Pdf").1, (outputFormat_leading_dot "Pdf").2.2 (by decide)⟩

/-! ## Frame extraction options in the FFmpeg path (C8) -/

lemma applySimpleFormatSettings_gif (c : FfCommand) (inputExt : String)
    (q : Quality) :
    applySimpleFormatSettings c "gif" inputExt q =
      if isVideoFile inputExt then
        ((c.addOpts ["-vf", "fps=10,scale=320:-1:flags=lanczos"]).addOpts
          ["-t", "10"]).container "gif"
      else (c.addOpts ["-vframes", "1"]).container "gif" := rfl

/-- C8 counterexample: the active FFmpeg settings path applies `-vframes 1`
to an image-to-image conversion (png input, png output), and omits it for a
video-to-gif conversion — both against the claimed image/video distinction. -/
theorem vframes_image_video_counterexample :
    hasSingleFrameOpt (convertWithFFmpegSettings "photo.png" "png"
      Quality.medium) = true ∧
    hasSingleFrameOpt (convertWithFFmpegSettings "clip.mp4" "gif"
      Quality.medium) = false := by
  decide

/-- C8 amended: in `applySimpleFormatSettings` — the settings path
`convertWithFFmpeg` uses — the still-image outputs jpg/jpeg, png, bmp, webp,
tiff and tif always receive `-vframes 1`, whatever the input extension; only
the gif output branches on the input type, giving video inputs the animated
path (fps=10 filter and a 10-second cap, no frame extraction) and all other
inputs `-vframes 1`. -/
theorem applySimpleFormatSettings_vframes (inputPath : String) (q : Quality) :
    (∀ fmt ∈ ["jpg", "jpeg", "png", "bmp", "webp", "tiff", "tif"],
      hasSingleFrameOpt (convertWithFFmpegSettings inputPath fmt q) = true) ∧
    (isVideoFile (jsToLower (extname inputPath)) = true →
      hasSingleFrameOpt (convertWithFFmpegSettings inputPath "gif" q) = false ∧
      (convertWithFFmpegSettings inputPath "gif" q).outputOptions =
        ["-y", "-vf", "fps=10,scale=320:-1:flags=lanczos", "-t", "10"]) ∧
    (isVideoFile (jsToLower (extname inputPath)) = false →
      hasSingleFrameOpt (convertWithFFmpegSettings inputPath "gif" q) = true) := by
  refine ⟨?_, ?_, ?_⟩
  · intro fmt hf
    fin_cases hf <;> cases q <;> rfl
  · intro h
    unfold convertWithFFmpegSettings
    rw [applySimpleFormatSettings_gif, if_pos h]
    exact ⟨rfl, rfl⟩
  · intro h
    unfold convertWithFFmpegSettings
    rw [applySimpleFormatSettings_gif, if_neg (by simp [h])]
    rfl

/-- Evaluation of C8 (amended) at concrete image and video inputs. -/
theorem applySimpleFormatSettings_vframes_witness :
    hasSingleFrameOpt (convertWithFFmpegSettings "still.png" "png"
      Quality.medium) = true ∧
    hasSingleFrameOpt (convertWithFFmpegSettings "movie.mp4" "gif"
      Quality.medium) = false ∧
    hasSingleFrameOpt (convertWithFFmpegSettings "still.png" "gif"
      Quality.medium) = true :=
  ⟨(applySimpleFormatSettings_vframes "still.png" Quality.medium).1 "png"
      (by decide),
   ((applySimpleFormatSettings_vframes "movie.mp4" Quality.medium).2.1
      (by decide)).1,
   (applySimpleFormatSettings_vframes "still.png" Quality.medium).2.2
      (by decide)⟩

/-! ## Line-splitting lemmas for the document round trip (C9) -/

lemma splitNl_ne_nil (cs : List Char) : splitNl cs ≠ [] := by
  induction cs with
  | nil => simp [splitNl]
  | cons c rest ih =>
      unfold splitNl
      split_ifs
      · simp
      · cases h : splitNl rest <;> simp [h]

lemma splitNl_cons_nl (ys : List Char) :
    splitNl ('\n' :: ys) = [] :: splitNl ys := by
  simp [splitNl]

lemma splitNl_cons_ne (c : Char) (hc : c ≠ '\n') (ys : List Char) :
    splitNl (c :: ys) =
      match splitNl ys with
      | h :: t => (c :: h) :: t
      | [] => [[c]] := by
  simp only [splitNl]
  rw [if_neg hc]

lemma splitNl_append (xs ys : List Char) :
    splitNl (xs ++ '\n' :: ys) = splitNl xs ++ splitNl ys := by
  induction xs with
  | nil => simp [splitNl_cons_nl, splitNl]
  | cons c rest ih =>
      by_cases h : c = '\n'
      · subst h
        rw [List.cons_append, splitNl_cons_nl, splitNl_cons_nl, ih,
          List.cons_append]
      · rw [List.cons_append, splitNl_cons_ne c h, splitNl_cons_ne c h, ih]
        cases hsp : splitNl rest with
        | nil => exact absurd hsp (splitNl_ne_nil rest)
        | cons a t => simp

lemma splitNl_no_nl (xs : List Char) (h : '\n' ∉ xs) : splitNl xs = [xs] := by
  induction xs with
  | nil => rfl
  | cons c rest ih =>
      have hc : c ≠ '\n' := by
        rintro rfl
        exact h (List.mem_cons_self _ _)
      have hrest : '\n' ∉ rest := fun hm => h (List.mem_cons_of_mem _ hm)
      rw [splitNl_cons_ne c hc, ih hrest]

lemma no_nl_of_mem_splitNl (cs : List Char) :
    ∀ l ∈ splitNl cs, '\n' ∉ l := by
  induction cs with
  | nil =>
      intro l hl
      simp [splitNl] at hl
      simp [hl]
  | cons c rest ih =>
      intro l hl
      by_cases h : c = '\n'
      · subst h
        rw [splitNl_cons_nl] at hl
        rcases List.mem_cons.mp hl with rfl | hl
        · simp
        · exact ih l hl
      · rw [splitNl_cons_ne c h] at hl
        cases hsp : splitNl rest with
        | nil => exact absurd hsp (splitNl_ne_nil rest)
        | cons a t =>
            rw [hsp] at hl
            rcases List.mem_cons.mp hl with rfl | hl
            · intro hmem
              rcases List.mem_cons.mp hmem with heq | hmem
              · exact h heq.symm
              · exact ih a (by rw [hsp]; exact List.mem_cons_self _ _) hmem
            · exact ih l (by rw [hsp]; exact List.mem_cons_of_mem _ hl)

/-- Splitting the rendered paragraph block: each paragraph becomes a line,
with an empty line interspersed, and the trailing newline of the block merges into
what follows. -/
lemma splitNl_paragraph_block (ps : List (List Char)) (ys : List Char)
    (hps : ∀ p ∈ ps, '\n' ∉ p) (hne : ps ≠ []) :
    splitNl (joinWith ['\n'] (ps.map (fun p => p ++ ['\n'])) ++ ys) =
      List.intersperse [] ps ++ splitNl ys := by
  induction ps with
  | nil => exact absurd rfl hne
  | cons p ps ih =>
      cases ps with
      | nil =>
          simp only [List.map_cons, List.map_nil, joinWith, List.intersperse]
          rw [List.append_assoc, List.singleton_append, splitNl_append,
            splitNl_no_nl p (hps p (List.mem_cons_self _ _)),
            List.singleton_append]
      | cons q qs =>
          have hq : ∀ r ∈ q :: qs, '\n' ∉ r := fun r hr =>
            hps r (List.mem_cons_of_mem _ hr)
          simp only [List.map_cons, joinWith]
          rw [List.intersperse_cons_cons]
          have harr :
              ((p ++ ['\n']) ++ ['\n'] ++
                  joinWith ['\n'] ((q :: qs).map (fun r => r ++ ['\n']))) ++ ys =
                p ++ '\n' :: ('\n' ::
                  (joinWith ['\n'] ((q :: qs).map (fun r => r ++ ['\n'])) ++ ys)) := by
            simp [List.append_assoc]
          rw [List.map_cons] at harr
          have ih' := ih hq (by simp)
          rw [List.map_cons] at ih'
          rw [harr, splitNl_append, splitNl_cons_nl,
            splitNl_no_nl p (hps p (List.mem_cons_self _ _)), ih']
          simp

/-- The paragraph filter of the Markdown parser recovers exactly the
paragraphs from the interspersed line block. -/
lemma filter_intersperse_paragraphs (ps : List (List Char))
    (h1 : ∀ p ∈ ps, startsWithHash p = false)
    (h2 : ∀ p ∈ ps, trimNonempty p = true) :
    (List.intersperse [] ps).filter
      (fun l => !startsWithHash l && trimNonempty l) = ps := by
  induction ps with
  | nil => rfl
  | cons p ps ih =>
      have hp1 := h1 p (List.mem_cons_self _ _)
      have hp2 := h2 p (List.mem_cons_self _ _)
      cases ps with
      | nil => simp [List.intersperse, List.filter_cons, hp1, hp2]
      | cons q qs =>
          have hq1 : ∀ r ∈ q :: qs, startsWithHash r = false := fun r hr =>
            h1 r (List.mem_cons_of_mem _ hr)
          have hq2 : ∀ r ∈ q :: qs, trimNonempty r = true := fun r hr =>
            h2 r (List.mem_cons_of_mem _ hr)
          rw [List.intersperse_cons_cons]
          simp only [List.filter_cons, hp1, hp2]
          simpa [trimNonempty] using ih hq1 hq2

/-- Embedding of `generateMd` for a `.txt` input, rearranged into newline-separated form. -/
lemma generateMd_txt_shape (T : List Char) (ps : List (List Char)) :
    generateMd ⟨T, ps⟩ ".txt" =
      ("# ".data ++ T) ++ '\n' ::
        ('\n' :: (joinWith ['\n'] (ps.map (fun p => p ++ ['\n'])) ++
          ('\n' :: ('\n' :: ("---".data ++ '\n' ::
            "*Converted from TXT by FastFile*".data))))) := by
  show "# ".data ++ T ++ "\n\n".data ++
      joinWith ['\n'] (ps.map (fun p => p ++ ['\n'])) ++
      ("\n\n---\n*Converted from ".data ++
        (jsSlice1 ".txt").data.map Char.toUpper ++ " by FastFile*".data) = _
  have hfoot : ("\n\n---\n*Converted from ".data ++
      (jsSlice1 ".txt").data.map Char.toUpper ++ " by FastFile*".data) =
      '\n' :: ('\n' :: ("---".data ++ '\n' ::
        "*Converted from TXT by FastFile*".data)) := by decide
  rw [hfoot]
  simp [List.append_assoc]

/-- C9 counterexample: a plain-text paragraph line that starts with `'#'` is
treated as a heading by the Markdown re-parse and dropped, so the round trip
loses it even after stripping the added title heading and footer lines. -/
theorem txt_md_roundtrip_counterexample :
    (parseTxt "Title\n#note\nmore".data).paragraphs =
      ["#note".data, "more".data] ∧
    roundTripParas "Title\n#note\nmore".data =
      ["more".data, "---".data, "*Converted from TXT by FastFile*".data] ∧
    (roundTripParas "Title\n#note\nmore".data).dropLast.dropLast ≠
      (parseTxt "Title\n#note\nmore".data).paragraphs := by
  refine ⟨by decide, by decide, by decide⟩

/-- C9 amended: for every plain-text input none of whose paragraph lines
starts with `'#'`, converting txt → md → txt preserves the paragraph
sequence: the re-parsed paragraphs are exactly the original ones followed by
the two deterministic footer lines (`---` and the conversion note), which the
comparison strips. -/
theorem txt_md_roundtrip_preserves_paragraphs (input : List Char)
    (hns : ∀ p ∈ (parseTxt input).paragraphs, startsWithHash p = false) :
    roundTripParas input =
      (parseTxt input).paragraphs ++
        ["---".data, "*Converted from TXT by FastFile*".data] := by
  cases hL : (splitNl input).filter trimNonempty with
  | nil =>
      have hdoc : parseTxt input = ⟨"Text Document".data, []⟩ := by
        simp [parseTxt, hL]
      unfold roundTripParas
      rw [hdoc]
      decide
  | cons t rest =>
      have hdoc : parseTxt input = ⟨t, rest⟩ := by
        simp [parseTxt, hL]
      have hmemF : ∀ p ∈ t :: rest, p ∈ (splitNl input).filter trimNonempty :=
        fun p hp => hL ▸ hp
      have htnl : '\n' ∉ t :=
        no_nl_of_mem_splitNl input t
          (List.mem_filter.mp (hmemF t (List.mem_cons_self _ _))).1
      have hrestnl : ∀ p ∈ rest, '\n' ∉ p := fun p hp =>
        no_nl_of_mem_splitNl input p
          (List.mem_filter.mp (hmemF p (List.mem_cons_of_mem _ hp))).1
      have hresttrim : ∀ p ∈ rest, trimNonempty p = true := fun p hp =>
        (List.mem_filter.mp (hmemF p (List.mem_cons_of_mem _ hp))).2
      have hresthash : ∀ p ∈ rest, startsWithHash p = false := by
        rw [hdoc] at hns
        exact hns
      have hheadnl : '\n' ∉ "# ".data ++ t := by
        intro hmem
        rcases List.mem_append.mp hmem with h | h
        · simp at h
        · exact htnl h
      have hheadhash : startsWithHash ("# ".data ++ t) = true := rfl
      unfold roundTripParas
      rw [hdoc, generateMd_txt_shape]
      show (splitNl _).filter _ = _
      rw [splitNl_append ("# ".data ++ t), splitNl_no_nl _ hheadnl,
        splitNl_cons_nl]
      have htail : splitNl ('\n' :: ('\n' :: ("---".data ++ '\n' ::
          "*Converted from TXT by FastFile*".data))) =
          [[], [], "---".data, "*Converted from TXT by FastFile*".data] := by
        decide
      cases rest with
      | nil =>
          rw [hdoc] at hns
          simp only [List.map_nil, joinWith, List.nil_append]
          rw [htail]
          simp [List.filter_cons, startsWithHash, trimNonempty]
      | cons q qs =>
          rw [splitNl_paragraph_block (q :: qs) _ hrestnl (by simp), htail]
          simp only [List.singleton_append, List.filter_cons, List.filter_append,
            hheadhash]
          rw [filter_intersperse_paragraphs (q :: qs) hresthash hresttrim]
          simp [startsWithHash, trimNonempty]

/-- Evaluation of C9 (amended) on a three-line text file. -/
theorem txt_md_roundtrip_witness :
    roundTripParas "Hello\nworld\nagain".data =
      (parseTxt "Hello\nworld\nagain".data).paragraphs ++
        ["---".data, "*Converted from TXT by FastFile*".data] :=
  txt_md_roundtrip_preserves_paragraphs "Hello\nworld\nagain".data (by decide)

end FastFile
